import Mathlib

/- Shallow embedding of the bulldozer remote rebase engine and update
   orchestration (bulldozer/rebase.go, bulldozer/update.go,
   server/handler/base.go, server/handler active-PR registry).

   Remote GitHub API calls are modelled by an environment `Env` of response
   functions; each embedded function returns its result together with the
   list of remote calls it performed (its trace), in order.  Mutating calls
   record whether the remote reported success.  Go strings are modelled as
   Lean `String`, with the byte-level prefix operations of the Go standard
   library expressed on the character list `String.data` (all prefixes
   involved are ASCII, where bytes and characters coincide). -/

namespace Bulldozer

/-- rebase.go: `refsPrefix = "refs/"`. -/
def refsPfx : String := "refs/"

/-- rebase.go: `branchPrefix = "heads/"`. -/
def branchPfx : String := "heads/"

/-- Go `strings.TrimPrefix s p`: drop `p` from the front of `s` when it is a
prefix, otherwise return `s` unchanged. -/
def goTrimPfx (s p : String) : String :=
  if p.data.isPrefixOf s.data then String.mk (s.data.drop p.data.length) else s

/-- rebase.go `makeHeadsRef`: strip a leading "refs/", then a leading
"heads/", then prepend "heads/". -/
def makeHeadsRef (ref : String) : String :=
  branchPfx ++ goTrimPfx (goTrimPfx ref refsPfx) branchPfx

/-- Remote errors.  `api` stands for any error value returned by a remote
primitive; `headMismatch` is the error built at rebase.go:137
("current ref SHA doesn't match original ref SHA"); `alreadyLocked` is the
error built at rebase.go:183 ("PR already locked"). -/
inductive GErr where
  | api (msg : String)
  | headMismatch
  | alreadyLocked
deriving DecidableEq, Repr

/-- A github.Reference: its name and the SHA of the object it points to. -/
structure RefObj where
  ref : String
  sha : String
deriving DecidableEq, Repr

/-- A github.Commit as returned by GetCommit/CreateCommit: the fields the
engine reads. -/
structure CommitObj where
  sha : String
  tree : String
deriving DecidableEq, Repr

/-- The data passed to Git.CreateCommit (github.Commit literal in the
source): author, committer, message, tree and the list of parent SHAs. -/
structure CommitData where
  author : String
  committer : String
  message : String
  tree : String
  parents : List String
deriving DecidableEq, Repr

/-- A github.RepositoryCommit from ListCommits: SHA, the inner commit's
author/committer/message, and the top-level parent SHA list. -/
structure RepoCommit where
  sha : String
  author : String
  committer : String
  message : String
  parents : List String
deriving DecidableEq, Repr

/-- The result of Repositories.Merge that the engine reads: the merge
commit's SHA and its tree. -/
structure MergeRes where
  sha : String
  tree : String
deriving DecidableEq, Repr

/-- The fields of a github.PullRequest the engine reads. -/
structure PullReq where
  number : Nat
  baseRef : String
  headRef : String
  headSHA : String
deriving DecidableEq, Repr

/-- One remote API call, as recorded in a trace.  Mutating calls carry the
`ok` flag: whether the remote reported success for that call. -/
inductive Event where
  | getRefE (ref : String)
  | createRefE (ref sha : String) (ok : Bool)
  | deleteRefE (ref : String)
  | updateRefE (ref sha : String) (force ok : Bool)
  | getCommitE (sha : String)
  | createCommitE (d : CommitData)
  | mergeE (base head : String) (ok : Bool)
  | listCommitsE (n : Nat)
deriving DecidableEq, Repr

/-- The remote repository service: a response for every primitive the engine
invokes (plus the uuid generator used for the temporary ref name). -/
structure Env where
  newUUID : Except GErr String
  getRef : String → Except GErr RefObj
  createRef : String → String → Except GErr RefObj
  deleteRef : String → Except GErr Unit
  updateRef : String → String → Bool → Except GErr RefObj
  getCommit : String → Except GErr CommitObj
  createCommit : CommitData → Except GErr CommitObj
  merge : String → String → Except GErr MergeRes
  listCommits : Nat → Except GErr (List RepoCommit)

/-- Whether an Except is a success. -/
def exOk {α : Type} : Except GErr α → Bool
  | Except.ok _ => true
  | Except.error _ => false

/-- Sequencing with Go's `if err != nil return err` discipline: run `r`,
and on success feed its value to `f`, concatenating the traces. -/
def step {α β : Type} (r : Except GErr α × List Event)
    (f : α → Except GErr β × List Event) : Except GErr β × List Event :=
  match r with
  | (Except.ok a, tr) => ((f a).1, tr ++ (f a).2)
  | (Except.error e, tr) => (Except.error e, tr)

def callGetRef (env : Env) (r : String) : Except GErr RefObj × List Event :=
  (env.getRef r, [Event.getRefE r])

def callCreateRef (env : Env) (r sha : String) : Except GErr RefObj × List Event :=
  (env.createRef r sha, [Event.createRefE r sha (exOk (env.createRef r sha))])

def callDeleteRef (env : Env) (r : String) : Except GErr Unit × List Event :=
  (env.deleteRef r, [Event.deleteRefE r])

def callUpdateRef (env : Env) (r sha : String) (force : Bool) :
    Except GErr RefObj × List Event :=
  (env.updateRef r sha force,
   [Event.updateRefE r sha force (exOk (env.updateRef r sha force))])

def callGetCommit (env : Env) (sha : String) : Except GErr CommitObj × List Event :=
  (env.getCommit sha, [Event.getCommitE sha])

def callCreateCommit (env : Env) (d : CommitData) : Except GErr CommitObj × List Event :=
  (env.createCommit d, [Event.createCommitE d])

def callMerge (env : Env) (base head : String) : Except GErr MergeRes × List Event :=
  (env.merge base head, [Event.mergeE base head (exOk (env.merge base head))])

def callListCommits (env : Env) (n : Nat) :
    Except GErr (List RepoCommit) × List Event :=
  (env.listCommits n, [Event.listCommitsE n])

/-- The temporary ref name built at rebase.go:44 from a fresh uuid. -/
def tmpName (u : String) : String := makeHeadsRef ("tmp/rebase-" ++ u)

/-- rebase.go `withTmpRef`: generate a uuid, create the temporary ref at
`headSHA`, run `f` on the created ref's name, and delete the temporary ref
before returning (deferred; its error is ignored), on every control path. -/
def withTmpRef {α : Type} (env : Env) (headSHA : String)
    (f : String → Except GErr α × List Event) : Except GErr α × List Event :=
  match env.newUUID with
  | Except.error e => (Except.error e, [])
  | Except.ok u =>
    match env.createRef (tmpName u) headSHA with
    | Except.error e => (Except.error e, [Event.createRefE (tmpName u) headSHA false])
    | Except.ok tmpRef =>
      (((f tmpRef.ref).1 : Except GErr α),
       Event.createRefE (tmpName u) headSHA true ::
         ((f tmpRef.ref).2 ++ [Event.deleteRefE tmpRef.ref]))

/-- rebase.go `createSiblingCommit`: create a commit with message
"sibling of " ++ C's SHA, C's author/committer, C's original parent list and
the accumulated tree, then force-update the temporary ref to it. -/
def createSiblingCommit (env : Env) (ref : String) (tree : String)
    (c : RepoCommit) : Except GErr Unit × List Event :=
  step (callCreateCommit env
          { author := c.author, committer := c.committer,
            message := "sibling of " ++ c.sha, tree := tree,
            parents := c.parents }) fun sibling =>
  step (callUpdateRef env ref sibling.sha true) fun _ =>
  (Except.ok (), [])

/-- rebase.go `cherryPickCommit`: stage the sibling commit, merge the
original commit into the temporary ref, then create a commit with the merge
result's tree, C's author/committer/message and the single parent `headSHA`,
and force-update the temporary ref to it.  Returns the new head SHA and the
new accumulated tree. -/
def cherryPickCommit (env : Env) (ref headSHA tree : String) (c : RepoCommit) :
    Except GErr (String × String) × List Event :=
  step (createSiblingCommit env ref tree c) fun _ =>
  step (callMerge env ref c.sha) fun mergeCommit =>
  step (callCreateCommit env
          { author := c.author, committer := c.committer,
            message := c.message, tree := mergeCommit.tree,
            parents := [headSHA] }) fun newHeadCommit =>
  step (callUpdateRef env ref newHeadCommit.sha true) fun _ =>
  (Except.ok (newHeadCommit.sha, mergeCommit.tree), [])

/-- The loop of rebase.go `cherryPickCommitsOnRef`: fold `cherryPickCommit`
over the pull request's commits, threading the head SHA and tree. -/
def cherryPickLoop (env : Env) (ref : String) :
    String → String → List RepoCommit → Except GErr (String × String) × List Event
  | headSHA, tree, [] => (Except.ok (headSHA, tree), [])
  | headSHA, tree, c :: rest =>
    step (cherryPickCommit env ref headSHA tree c) fun p =>
      cherryPickLoop env ref p.1 p.2 rest

/-- rebase.go `cherryPickCommitsOnRef`: run the loop, then validate the
temporary ref with a fast-forward-only (non-force) update to the final
head SHA. -/
def cherryPickCommitsOnRef (env : Env) (ref headSHA tree : String)
    (commits : List RepoCommit) : Except GErr String × List Event :=
  step (cherryPickLoop env ref headSHA tree commits) fun p =>
  step (callUpdateRef env ref p.1 false) fun _ =>
  (Except.ok p.1, [])

/-- rebase.go `checkSameHead`: re-fetch the ref and fail with
`headMismatch` unless its SHA still equals `initialSHA`. -/
def checkSameHead (env : Env) (ref initialSHA : String) :
    Except GErr Unit × List Event :=
  step (callGetRef env (makeHeadsRef ref)) fun actualRef =>
  (if initialSHA ≠ actualRef.sha then (Except.error GErr.headMismatch, [])
   else (Except.ok (), []))

/-- The normalized name of the pull request's real head branch ref, the one
the final UpdateRef of `rebase` targets. -/
def realRef (pr : PullReq) : String := makeHeadsRef pr.headRef

/-- The function rebase.go `rebase` passes to `withTmpRef` (rebase.go
159-178): cherry-pick the PR commits onto the temporary ref, ensure the PR
head did not change while merging was in progress, then force-update the
real PR branch ref to the rewritten head. -/
def rebaseInner (env : Env) (pr : PullReq) (bsha btree : String)
    (cs : List RepoCommit) (tmpRef : String) : Except GErr Unit × List Event :=
  step (cherryPickCommitsOnRef env tmpRef bsha btree cs) fun newHeadSHA =>
  step (checkSameHead env pr.headRef pr.headSHA) fun _ =>
  step (callUpdateRef env (realRef pr) newHeadSHA true) fun _ =>
  (Except.ok (), [])

/-- rebase.go `rebase`: fetch the base ref, its commit and the PR's commits,
then run `rebaseInner` under the temporary ref. -/
def rebase (env : Env) (pr : PullReq) : Except GErr Unit × List Event :=
  step (callGetRef env (makeHeadsRef pr.baseRef)) fun baseRefObj =>
  step (callGetCommit env baseRefObj.sha) fun baseCommit =>
  step (callListCommits env pr.number) fun prCommits =>
  withTmpRef env baseRefObj.sha
    (rebaseInner env pr baseCommit.sha baseCommit.tree prCommits)

/-- rebase.go `interlockedRebase`: compare-and-swap on the process-wide
`prLock`.  If the lock is already held, fail immediately with the
"PR already locked" error, performing no remote call and leaving the lock
as it was; otherwise run `rebase` and release the lock before returning
(deferred store of `stateUnlocked`).  The `Bool` of the result is the lock
state when the call returns. -/
def interlockedRebase (env : Env) (lockHeld : Bool) (pr : PullReq) :
    Bool × (Except GErr Unit × List Event) :=
  if lockHeld then (lockHeld, (Except.error GErr.alreadyLocked, []))
  else (false, rebase env pr)

end Bulldozer

namespace Bulldozer

/-- Sanity example environment where every remote call succeeds. -/
def env0 : Env where
  newUUID := Except.ok "u0"
  getRef := fun r => Except.ok { ref := r, sha := if r = makeHeadsRef ("feat") then ("hsha") else ("bsha") }
  createRef := fun r s => Except.ok { ref := r, sha := s }
  deleteRef := fun _ => Except.ok ()
  updateRef := fun r s _ => Except.ok { ref := r, sha := s }
  getCommit := fun s => Except.ok { sha := s, tree := "btree" }
  createCommit := fun d => Except.ok { sha := "c:" ++ d.message, tree := d.tree }
  merge := fun _ h => Except.ok { sha := "m:" ++ h, tree := "t:" ++ h }
  listCommits := fun _ =>
    Except.ok [{ sha := "c0", author := "a", committer := "m",
                 message := "fix", parents := ["p0"] }]

/-- Sanity example pull request. -/
def pr0 : PullReq :=
  { number := 1, baseRef := "base", headRef := "feat", headSHA := "hsha" }

example : (rebase env0 pr0).1 = Except.ok () := by rfl

example : (rebase env0 pr0).2.getLast? =
    some (Event.deleteRefE (tmpName ("u0"))) := by rfl

end Bulldozer

namespace Bulldozer

/- ------------------------------------------------------------------ -/
/- bulldozer/update.go: failure registry and the rebase-outcome part
   of the background update cycle's tick body.                         -/
/- ------------------------------------------------------------------ -/

/-- The failure registry `failedRebases : map[int]time.Time`, modelled as a
map from pull-request number to the last failure timestamp.  Timestamps are
integers in nanoseconds, the resolution of Go's `time.Time`. -/
def Reg : Type := Nat → Option Int

/-- Nanoseconds per minute, used to express `time.Duration.Minutes`
comparisons exactly. -/
def nsPerMinute : Int := 60000000000

/-- update.go:30 `failThresholdMinutes = 60`. -/
def failThresholdMinutes : Int := 60

/-- update.go `RemoveFailedPR`: delete the entry for `prNumber`. -/
def RemoveFailedPR (reg : Reg) (prNumber : Nat) : Reg :=
  fun k => if k = prNumber then none else reg k

/-- handler active-PR registry `AddActivePR`: insert the locator into the
`updateInProgress` set. -/
def AddActivePR (active : List String) (id : String) : List String :=
  if id ∈ active then active else id :: active

/-- handler active-PR registry `RmoveActivePR`: remove the locator and
report whether it was present. -/
def RmoveActivePR (active : List String) (id : String) : List String × Bool :=
  (active.filter (fun x => x ≠ id), decide (id ∈ active))

/-- handler active-PR registry `ActivePRPresent`: whether the set is
non-empty. -/
def ActivePRPresent (active : List String) : Bool := !active.isEmpty

/-- How one tick of the update cycle ends, in the branch where the pull
request is behind its base (update.go lines 142-177). -/
inductive CycleAction where
  | cooldownAbort
  | recordedFailure
  | skippedLocked
  | succeeded
deriving DecidableEq, Repr

/-- The rebase attempt and its outcome handling in update.go lines 159-174:
`attempt` performs the rebase and yields `(locked, err)` as destructured at
line 166, together with the remote calls it made.  On `err ≠ nil` the
current time is written into the failure registry for this pull request; on
`locked` the tick just ends; otherwise `onSuccess` (the `AddActivePR`
callback passed by the handler) marks the locator active. -/
def runAttempt (reg : Reg) (active : List String) (locator : String)
    (now : Int) (prNum : Nat)
    (attempt : Unit → Bool × Option GErr × List Event) :
    Reg × List String × CycleAction × List Event :=
  match (attempt ()).2.1 with
  | some _ =>
    (fun k => if k = prNum then some now else reg k, active,
     CycleAction.recordedFailure, (attempt ()).2.2)
  | none =>
    if (attempt ()).1 then (reg, active, CycleAction.skippedLocked, (attempt ()).2.2)
    else (reg, AddActivePR active locator, CycleAction.succeeded, (attempt ()).2.2)

/-- update.go lines 145-174, the tick body once the pull request is known to
be behind base: consult the failure registry, and if the last failure for
this pull-request number is less than `failThresholdMinutes` old, end the
tick without attempting a rebase; otherwise run the attempt.
`diff.Minutes() < failThresholdMinutes` on nanosecond timestamps is
`now - lastFail < failThresholdMinutes * nsPerMinute`. -/
def updateCycleStep (reg : Reg) (active : List String) (locator : String)
    (now : Int) (prNum : Nat)
    (attempt : Unit → Bool × Option GErr × List Event) :
    Reg × List String × CycleAction × List Event :=
  match reg prNum with
  | some lastFail =>
    if now - lastFail < failThresholdMinutes * nsPerMinute then
      (reg, active, CycleAction.cooldownAbort, [])
    else runAttempt reg active locator now prNum attempt
  | none => runAttempt reg active locator now prNum attempt

/- ------------------------------------------------------------------ -/
/- server/handler/base.go: oldest-first candidate selection.           -/
/- ------------------------------------------------------------------ -/

/-- The fields of handler `pullWithConfig` that `UpdateOldestPullRequest`
reads: the pull request's locator and creation timestamp. -/
structure PWC where
  locator : String
  createdAt : Int
deriving DecidableEq, Repr

/-- The comparison `prs[i].pr.GetCreatedAt().Before(prs[j].pr.GetCreatedAt())`
as a total preorder for sorting. -/
def byCreated (a b : PWC) : Prop := a.createdAt ≤ b.createdAt

instance : DecidableRel byCreated := fun a b => Int.decLe a.createdAt b.createdAt

instance : IsTotal PWC byCreated := ⟨fun a b => Int.le_total a.createdAt b.createdAt⟩

instance : IsTrans PWC byCreated := ⟨fun _ _ _ h1 h2 => le_trans h1 h2⟩

/-- What `UpdateOldestPullRequest` decides: do nothing, or start an update
cycle for the chosen candidate. -/
inductive SelectOutcome where
  | idle
  | started (chosen : PWC)
deriving DecidableEq, Repr

/-- handler/base.go `UpdateOldestPullRequest`: do nothing when the candidate
list is empty or the active-update registry is non-empty (`ActivePRPresent`);
otherwise sort by creation time ascending and start an update cycle for the
first candidate.  The first parameter is the state of the bulldozer
package's global rebase lock (`prLock`); the source does not consult it in
this function (it is unexported from the other package), which the unused
binder makes explicit. -/
def UpdateOldestPullRequest (_prLockHeld : Bool) (active : List String)
    (prs : List PWC) : SelectOutcome :=
  if prs.isEmpty then SelectOutcome.idle
  else if ActivePRPresent active then SelectOutcome.idle
  else
    match List.insertionSort byCreated prs with
    | [] => SelectOutcome.idle
    | oldest :: _ => SelectOutcome.started oldest

/- ------------------------------------------------------------------ -/
/- Interleaving model for the global rebase lock (rebase.go 13-21,
   181-188): two concurrent interlockedRebase calls as threads that
   atomically compare-and-swap `prLock`, perform remote mutations only
   inside the critical section, and release by an atomic store.        -/
/- ------------------------------------------------------------------ -/

/-- Control state of one interlockedRebase call: not yet at the CAS, inside
the critical section (CAS won), returned with the "PR already locked" error
(CAS lost), or returned after running the rebase and releasing the lock. -/
inductive ThState where
  | start
  | crit
  | doneLocked
  | doneRun
deriving DecidableEq, Repr

/-- Global state of two concurrent interlockedRebase calls: the process-wide
lock flag, each thread's control state, and how many remote mutations each
thread has performed. -/
structure LSys where
  lock : Bool
  a : ThState
  b : ThState
  amuts : Nat
  bmuts : Nat
deriving DecidableEq, Repr

/-- Initial state: lock free (`stateUnlocked`), both calls before their CAS,
no remote mutation performed. -/
def initSys : LSys :=
  { lock := false, a := ThState.start, b := ThState.start, amuts := 0, bmuts := 0 }

/-- Atomic steps of the two interlockedRebase calls.  The CAS either fails
(lock held: return the error immediately, no remote call) or succeeds
(acquire and enter the critical section); inside the critical section the
rebase performs remote mutations one at a time; the deferred store releases
the lock and returns. -/
inductive LStep : LSys → LSys → Prop where
  | acqFailA (s : LSys) (h : s.a = ThState.start) (hl : s.lock = true) :
      LStep s { s with a := ThState.doneLocked }
  | acqOkA (s : LSys) (h : s.a = ThState.start) (hl : s.lock = false) :
      LStep s { s with a := ThState.crit, lock := true }
  | mutA (s : LSys) (h : s.a = ThState.crit) :
      LStep s { s with amuts := s.amuts + 1 }
  | relA (s : LSys) (h : s.a = ThState.crit) :
      LStep s { s with a := ThState.doneRun, lock := false }
  | acqFailB (s : LSys) (h : s.b = ThState.start) (hl : s.lock = true) :
      LStep s { s with b := ThState.doneLocked }
  | acqOkB (s : LSys) (h : s.b = ThState.start) (hl : s.lock = false) :
      LStep s { s with b := ThState.crit, lock := true }
  | mutB (s : LSys) (h : s.b = ThState.crit) :
      LStep s { s with bmuts := s.bmuts + 1 }
  | relB (s : LSys) (h : s.b = ThState.crit) :
      LStep s { s with b := ThState.doneRun, lock := false }

/-- States reachable from `initSys` by interleaving the two calls' steps. -/
inductive LReach : LSys → Prop where
  | init : LReach initSys
  | next (s t : LSys) (hs : LReach s) (h : LStep s t) : LReach t

end Bulldozer

namespace Bulldozer

/- ------------------------------------------------------------------ -/
/- Generic lemmas about `step` traces.                                 -/
/- ------------------------------------------------------------------ -/

theorem step_mem {α β : Type} {r : Except GErr α × List Event}
    {f : α → Except GErr β × List Event} {e : Event}
    (h : e ∈ (step r f).2) : e ∈ r.2 ∨ ∃ a, r.1 = Except.ok a ∧ e ∈ (f a).2 := by
  obtain ⟨x, t0⟩ := r
  cases x with
  | ok a =>
    simp only [step, List.mem_append] at h
    rcases h with h | h
    · exact Or.inl h
    · exact Or.inr ⟨a, rfl, h⟩
  | error e0 => exact Or.inl h

theorem step_ok {α β : Type} {r : Except GErr α × List Event}
    {f : α → Except GErr β × List Event} {p : β} {tr : List Event}
    (h : step r f = (Except.ok p, tr)) :
    ∃ a, r.1 = Except.ok a ∧ (f a).1 = Except.ok p ∧ tr = r.2 ++ (f a).2 := by
  obtain ⟨x, t0⟩ := r
  cases x with
  | ok a =>
    simp only [step, Prod.mk.injEq] at h
    exact ⟨a, rfl, h.1, h.2.symm⟩
  | error e0 =>
    simp only [step, Prod.mk.injEq] at h
    exact absurd h.1 (by simp)

theorem step_of_ok {α β : Type} {r : Except GErr α × List Event}
    {f : α → Except GErr β × List Event} {a : α}
    (h : r.1 = Except.ok a) : step r f = ((f a).1, r.2 ++ (f a).2) := by
  obtain ⟨x, t0⟩ := r
  cases x with
  | ok b => cases h; rfl
  | error e0 => exact absurd h (by simp)

theorem step_of_error {α β : Type} {r : Except GErr α × List Event}
    {f : α → Except GErr β × List Event} {e : GErr}
    (h : r.1 = Except.error e) : step r f = (Except.error e, r.2) := by
  obtain ⟨x, t0⟩ := r
  cases x with
  | ok b => exact absurd h (by simp)
  | error e0 => cases h; rfl

/- ------------------------------------------------------------------ -/
/- Events emitted by the cherry-pick phase all stay on the temporary
   ref: commit creation, merges into `ref`, updates of `ref`.          -/
/- ------------------------------------------------------------------ -/

/-- The shapes of events the cherry-pick phase can emit, relative to its
working ref. -/
def pickEv (ref : String) : Event → Prop
  | Event.updateRefE r _ _ _ => r = ref
  | Event.mergeE b _ _ => b = ref
  | Event.createCommitE _ => True
  | _ => False

theorem sib_events {env : Env} {ref tree : String} {c : RepoCommit} {e : Event}
    (h : e ∈ (createSiblingCommit env ref tree c).2) : pickEv ref e := by
  unfold createSiblingCommit at h
  rcases step_mem h with h1 | ⟨a, _, h2⟩
  · simp only [callCreateCommit, List.mem_singleton] at h1
    subst h1; trivial
  · rcases step_mem h2 with h3 | ⟨b, _, h4⟩
    · simp only [callUpdateRef, List.mem_singleton] at h3
      subst h3; rfl
    · simp at h4

theorem cpc_events {env : Env} {ref headSHA tree : String} {c : RepoCommit}
    {e : Event} (h : e ∈ (cherryPickCommit env ref headSHA tree c).2) :
    pickEv ref e := by
  unfold cherryPickCommit at h
  rcases step_mem h with h1 | ⟨a, _, h2⟩
  · exact sib_events h1
  · rcases step_mem h2 with h3 | ⟨b, _, h4⟩
    · simp only [callMerge, List.mem_singleton] at h3
      subst h3; rfl
    · rcases step_mem h4 with h5 | ⟨d, _, h6⟩
      · simp only [callCreateCommit, List.mem_singleton] at h5
        subst h5; trivial
      · rcases step_mem h6 with h7 | ⟨g, _, h8⟩
        · simp only [callUpdateRef, List.mem_singleton] at h7
          subst h7; rfl
        · simp at h8

theorem loop_events {env : Env} {ref : String} :
    ∀ {cs : List RepoCommit} {headSHA tree : String} {e : Event},
      e ∈ (cherryPickLoop env ref headSHA tree cs).2 → pickEv ref e := by
  intro cs
  induction cs with
  | nil => intro headSHA tree e h; simp [cherryPickLoop] at h
  | cons c rest ih =>
    intro headSHA tree e h
    unfold cherryPickLoop at h
    rcases step_mem h with h1 | ⟨p, _, h2⟩
    · exact cpc_events h1
    · exact ih h2

theorem cpcor_events {env : Env} {ref headSHA tree : String}
    {cs : List RepoCommit} {e : Event}
    (h : e ∈ (cherryPickCommitsOnRef env ref headSHA tree cs).2) :
    pickEv ref e := by
  unfold cherryPickCommitsOnRef at h
  rcases step_mem h with h1 | ⟨p, _, h2⟩
  · exact loop_events h1
  · rcases step_mem h2 with h3 | ⟨b, _, h4⟩
    · simp only [callUpdateRef, List.mem_singleton] at h3
      subst h3; rfl
    · simp at h4

end Bulldozer

namespace Bulldozer

/- ------------------------------------------------------------------ -/
/- Success characterizations of the cherry-pick phase.                 -/
/- ------------------------------------------------------------------ -/

theorem step_fst_ok {α β : Type} {r : Except GErr α × List Event}
    {f : α → Except GErr β × List Event} {p : β}
    (h : (step r f).1 = Except.ok p) :
    ∃ a, r.1 = Except.ok a ∧ (f a).1 = Except.ok p ∧
      (step r f).2 = r.2 ++ (f a).2 := by
  obtain ⟨x, t0⟩ := r
  cases x with
  | ok a => exact ⟨a, rfl, h, rfl⟩
  | error e0 => exact absurd h (by simp [step])

theorem cpc_ok_merge {env : Env} {ref headSHA tree : String} {c : RepoCommit}
    {p : String × String}
    (h : (cherryPickCommit env ref headSHA tree c).1 = Except.ok p) :
    Event.mergeE ref c.sha true ∈ (cherryPickCommit env ref headSHA tree c).2 := by
  unfold cherryPickCommit at h ⊢
  obtain ⟨a, ha, h2, -⟩ := step_fst_ok h
  rw [step_of_ok ha]
  apply List.mem_append_right
  obtain ⟨m, hm, h3, -⟩ := step_fst_ok h2
  rw [step_of_ok hm]
  apply List.mem_append_left
  simp only [callMerge] at hm ⊢
  rw [hm]
  exact List.mem_singleton.mpr rfl

theorem loop_ok_merges {env : Env} {ref : String} :
    ∀ {cs : List RepoCommit} {headSHA tree : String} {p : String × String},
      (cherryPickLoop env ref headSHA tree cs).1 = Except.ok p →
      ∀ c ∈ cs, Event.mergeE ref c.sha true ∈
        (cherryPickLoop env ref headSHA tree cs).2 := by
  intro cs
  induction cs with
  | nil => intro headSHA tree p _ c hc; simp at hc
  | cons c0 rest ih =>
    intro headSHA tree p h c hc
    unfold cherryPickLoop at h ⊢
    obtain ⟨a, ha, h2, -⟩ := step_fst_ok h
    rw [step_of_ok ha]
    rcases List.mem_cons.mp hc with hc0 | hcr
    · subst hc0
      exact List.mem_append_left _ (cpc_ok_merge ha)
    · exact List.mem_append_right _ (ih h2 c hcr)

theorem cpcor_ok {env : Env} {ref headSHA tree : String} {cs : List RepoCommit}
    {fsha : String}
    (h : (cherryPickCommitsOnRef env ref headSHA tree cs).1 = Except.ok fsha) :
    Event.updateRefE ref fsha false true ∈
      (cherryPickCommitsOnRef env ref headSHA tree cs).2 ∧
    ∀ c ∈ cs, Event.mergeE ref c.sha true ∈
      (cherryPickCommitsOnRef env ref headSHA tree cs).2 := by
  unfold cherryPickCommitsOnRef at h ⊢
  obtain ⟨a, ha, h2, -⟩ := step_fst_ok h
  rw [step_of_ok ha]
  obtain ⟨b, hb, h3, -⟩ := step_fst_ok h2
  constructor
  · apply List.mem_append_right
    rw [step_of_ok hb]
    apply List.mem_append_left
    simp only [callUpdateRef] at hb ⊢
    -- the fast-forward update succeeded, and its target is the final SHA
    have hfa : a.1 = fsha := by
      rw [step_of_ok hb] at h2
      simpa using h2
    rw [hb, hfa]
    exact List.mem_singleton.mpr rfl
  · intro c hc
    exact List.mem_append_left _ (loop_ok_merges ha c hc)

theorem checkSameHead_trace (env : Env) (ref initialSHA : String) :
    (checkSameHead env ref initialSHA).2 = [Event.getRefE (makeHeadsRef ref)] := by
  unfold checkSameHead callGetRef
  cases hg : env.getRef (makeHeadsRef ref) with
  | ok ro =>
    simp only [step]
    by_cases hne : initialSHA ≠ ro.sha <;> simp [hne]
  | error e => simp [step]

theorem checkSameHead_ok {env : Env} {ref initialSHA : String}
    (h : (checkSameHead env ref initialSHA).1 = Except.ok ()) :
    ∃ ro, env.getRef (makeHeadsRef ref) = Except.ok ro ∧ ro.sha = initialSHA := by
  unfold checkSameHead callGetRef at h
  cases hg : env.getRef (makeHeadsRef ref) with
  | ok ro =>
    rw [hg] at h
    simp only [step] at h
    by_cases hne : initialSHA ≠ ro.sha
    · simp [hne] at h
    · exact ⟨ro, rfl, (not_ne_iff.mp hne).symm⟩
  | error e =>
    rw [hg] at h
    simp [step] at h

end Bulldozer

namespace Bulldozer

/- ------------------------------------------------------------------ -/
/- Normalization lemmas for makeHeadsRef.                              -/
/- ------------------------------------------------------------------ -/

theorem refsPfx_data : refsPfx.data = ['r', 'e', 'f', 's', '/'] := rfl

theorem branchPfx_data : branchPfx.data = ['h', 'e', 'a', 'd', 's', '/'] := rfl

theorem heads_append_data (t : String) :
    (branchPfx ++ t).data = 'h' :: 'e' :: 'a' :: 'd' :: 's' :: '/' :: t.data := by
  rw [String.data_append, branchPfx_data]
  rfl

theorem goTrimPfx_heads_by_refs (t : String) :
    goTrimPfx (branchPfx ++ t) refsPfx = branchPfx ++ t := by
  unfold goTrimPfx
  rw [heads_append_data, refsPfx_data]
  simp [List.isPrefixOf]

theorem goTrimPfx_heads_by_heads (t : String) :
    goTrimPfx (branchPfx ++ t) branchPfx = t := by
  obtain ⟨d⟩ := t
  unfold goTrimPfx
  rw [heads_append_data, branchPfx_data]
  simp [List.isPrefixOf]

theorem makeHeadsRef_heads (t : String) :
    makeHeadsRef (branchPfx ++ t) = branchPfx ++ t := by
  unfold makeHeadsRef
  rw [goTrimPfx_heads_by_refs, goTrimPfx_heads_by_heads]

theorem makeHeadsRef_idem (s : String) :
    makeHeadsRef (makeHeadsRef s) = makeHeadsRef s :=
  makeHeadsRef_heads (goTrimPfx (goTrimPfx s refsPfx) branchPfx)

theorem goTrimPfx_no_pfx {s p : String}
    (h : p.data.isPrefixOf s.data = false) : goTrimPfx s p = s := by
  unfold goTrimPfx
  simp [h]

theorem makeHeadsRef_plain {X : String}
    (h1 : refsPfx.data.isPrefixOf X.data = false)
    (h2 : branchPfx.data.isPrefixOf X.data = false) :
    makeHeadsRef X = branchPfx ++ X := by
  unfold makeHeadsRef
  rw [goTrimPfx_no_pfx h1, goTrimPfx_no_pfx h2]

theorem refsheads_append_data (X : String) :
    (("refs/heads/" : String) ++ X).data =
      'r' :: 'e' :: 'f' :: 's' :: '/' :: 'h' :: 'e' :: 'a' :: 'd' :: 's' :: '/' :: X.data := by
  rw [String.data_append]
  rfl

theorem makeHeadsRef_refs_heads (X : String) :
    makeHeadsRef (("refs/heads/" : String) ++ X) = branchPfx ++ X := by
  have h1 : goTrimPfx (("refs/heads/" : String) ++ X) refsPfx = branchPfx ++ X := by
    obtain ⟨d⟩ := X
    unfold goTrimPfx
    rw [refsheads_append_data, refsPfx_data]
    simp [List.isPrefixOf]
    rfl
  unfold makeHeadsRef
  rw [h1, goTrimPfx_heads_by_heads]

end Bulldozer

namespace Bulldozer

/- ------------------------------------------------------------------ -/
/- Control-flow analysis of rebaseInner, withTmpRef and rebase.        -/
/- ------------------------------------------------------------------ -/

theorem exOk_true {α : Type} {r : Except GErr α} (h : exOk r = true) :
    ∃ v, r = Except.ok v := by
  cases r with
  | error e => simp [exOk] at h
  | ok v => exact ⟨v, rfl⟩

theorem withTmpRef_uuid_error {α : Type} {env : Env} {headSHA : String}
    {f : String → Except GErr α × List Event} {e : GErr}
    (hu : env.newUUID = Except.error e) :
    withTmpRef env headSHA f = (Except.error e, []) := by
  unfold withTmpRef
  simp only [hu]

theorem withTmpRef_create_error {α : Type} {env : Env} {headSHA : String}
    {f : String → Except GErr α × List Event} {u : String} {e : GErr}
    (hu : env.newUUID = Except.ok u)
    (hcr : env.createRef (tmpName u) headSHA = Except.error e) :
    withTmpRef env headSHA f =
      (Except.error e, [Event.createRefE (tmpName u) headSHA false]) := by
  unfold withTmpRef
  simp only [hu, hcr]

theorem withTmpRef_created {α : Type} {env : Env} {headSHA : String}
    {f : String → Except GErr α × List Event} {u : String} {tmpRef : RefObj}
    (hu : env.newUUID = Except.ok u)
    (hcr : env.createRef (tmpName u) headSHA = Except.ok tmpRef) :
    withTmpRef env headSHA f =
      ((f tmpRef.ref).1,
       Event.createRefE (tmpName u) headSHA true ::
         ((f tmpRef.ref).2 ++ [Event.deleteRefE tmpRef.ref])) := by
  unfold withTmpRef
  simp only [hu, hcr]

theorem rebaseInner_ok_shape {env : Env} {pr : PullReq} {bsha btree : String}
    {cs : List RepoCommit} {tmpRef : String}
    (h : (rebaseInner env pr bsha btree cs tmpRef).1 = Except.ok ()) :
    ∃ fsha, (cherryPickCommitsOnRef env tmpRef bsha btree cs).1 = Except.ok fsha ∧
      (∃ hro, env.getRef (realRef pr) = Except.ok hro ∧ hro.sha = pr.headSHA) ∧
      (rebaseInner env pr bsha btree cs tmpRef).2 =
        (cherryPickCommitsOnRef env tmpRef bsha btree cs).2 ++
          [Event.getRefE (realRef pr),
           Event.updateRefE (realRef pr) fsha true true] := by
  unfold rebaseInner at h ⊢
  obtain ⟨fsha, hcp, h2, htr⟩ := step_fst_ok h
  obtain ⟨a, hchk, h3, htr2⟩ := step_fst_ok h2
  obtain ⟨ro, hup, _, htr3⟩ := step_fst_ok h3
  simp only [callUpdateRef] at hup
  refine ⟨fsha, hcp, ?_, ?_⟩
  · exact checkSameHead_ok (by rw [hchk])
  · rw [htr, htr2, htr3]
    simp only [callUpdateRef]
    rw [hup]
    rw [checkSameHead_trace]
    simp [realRef, exOk]

theorem rebaseInner_no_real_update {env : Env} {pr : PullReq}
    {bsha btree : String} {cs : List RepoCommit} {tmpRef : String}
    (hne : tmpRef ≠ realRef pr)
    (h : (rebaseInner env pr bsha btree cs tmpRef).1 ≠ Except.ok ()) :
    ∀ sha fo, Event.updateRefE (realRef pr) sha fo true ∉
      (rebaseInner env pr bsha btree cs tmpRef).2 := by
  intro sha fo hmem
  unfold rebaseInner at h hmem
  rcases step_mem hmem with h1 | ⟨fsha, hcp, h2⟩
  · have hp := cpcor_events h1
    simp only [pickEv] at hp
    exact hne hp.symm
  · rcases step_mem h2 with h3 | ⟨a, hchk, h4⟩
    · rw [checkSameHead_trace] at h3
      simp at h3
    · rcases step_mem h4 with h5 | ⟨ro, hup, h6⟩
      · simp only [callUpdateRef, List.mem_singleton] at h5
        have hok : exOk (env.updateRef (realRef pr) fsha true) = true := by
          have := congrArg (fun ev => match ev with
            | Event.updateRefE _ _ _ b => b
            | _ => false) h5
          simpa using this.symm
        obtain ⟨v, hv⟩ := exOk_true hok
        apply h
        rw [step_of_ok hcp]
        simp only
        rw [step_of_ok hchk]
        simp only
        have hupd : (callUpdateRef env (realRef pr) fsha true).1 = Except.ok v := by
          simp [callUpdateRef, hv]
        rw [step_of_ok hupd]
      · simp at h6

end Bulldozer

namespace Bulldozer

theorem rebase_ok_shape {env : Env} {pr : PullReq}
    (hecho : ∀ n s ro, env.createRef n s = Except.ok ro → ro.ref = n)
    (h : (rebase env pr).1 = Except.ok ()) :
    ∃ bro bco cs u fsha,
      env.getRef (makeHeadsRef pr.baseRef) = Except.ok bro ∧
      env.getCommit bro.sha = Except.ok bco ∧
      env.listCommits pr.number = Except.ok cs ∧
      env.newUUID = Except.ok u ∧
      (cherryPickCommitsOnRef env (tmpName u) bco.sha bco.tree cs).1 =
        Except.ok fsha ∧
      (∃ hro, env.getRef (realRef pr) = Except.ok hro ∧ hro.sha = pr.headSHA) ∧
      (rebase env pr).2 =
        [Event.getRefE (makeHeadsRef pr.baseRef), Event.getCommitE bro.sha,
         Event.listCommitsE pr.number, Event.createRefE (tmpName u) bro.sha true] ++
        (cherryPickCommitsOnRef env (tmpName u) bco.sha bco.tree cs).2 ++
        [Event.getRefE (realRef pr), Event.updateRefE (realRef pr) fsha true true,
         Event.deleteRefE (tmpName u)] := by
  unfold rebase at h ⊢
  obtain ⟨bro, hbr, h2, htr⟩ := step_fst_ok h
  obtain ⟨bco, hbc, h3, htr2⟩ := step_fst_ok h2
  obtain ⟨cs, hlc, h4, htr3⟩ := step_fst_ok h3
  simp only [callGetRef] at hbr
  simp only [callGetCommit] at hbc
  simp only [callListCommits] at hlc
  cases hu : env.newUUID with
  | error e => rw [withTmpRef_uuid_error hu] at h4; simp at h4
  | ok u =>
    cases hcr : env.createRef (tmpName u) bro.sha with
    | error e => rw [withTmpRef_create_error hu hcr] at h4; simp at h4
    | ok tmpRef =>
      have href : tmpRef.ref = tmpName u := hecho _ _ _ hcr
      rw [withTmpRef_created hu hcr] at h4 htr3
      simp only at h4
      rw [href] at h4
      obtain ⟨fsha, hcp, hhead, hshape⟩ := rebaseInner_ok_shape h4
      refine ⟨bro, bco, cs, u, fsha, hbr, hbc, hlc, rfl, hcp, hhead, ?_⟩
      rw [htr, htr2, htr3]
      simp only [callGetRef, callGetCommit, callListCommits, href]
      rw [hshape]
      simp

theorem rebase_no_real_update {env : Env} {pr : PullReq}
    (hecho : ∀ n s ro, env.createRef n s = Except.ok ro → ro.ref = n)
    (hfresh : ∀ u, env.newUUID = Except.ok u → tmpName u ≠ realRef pr)
    (h : (rebase env pr).1 ≠ Except.ok ()) :
    ∀ sha fo, Event.updateRefE (realRef pr) sha fo true ∉ (rebase env pr).2 := by
  intro sha fo hmem
  unfold rebase at h hmem
  rcases step_mem hmem with h1 | ⟨bro, hbr, h2⟩
  · simp [callGetRef] at h1
  · rcases step_mem h2 with h3 | ⟨bco, hbc, h4⟩
    · simp [callGetCommit] at h3
    · rcases step_mem h4 with h5 | ⟨cs, hlc, h6⟩
      · simp [callListCommits] at h5
      · cases hu : env.newUUID with
        | error e => rw [withTmpRef_uuid_error hu] at h6; simp at h6
        | ok u =>
          cases hcr : env.createRef (tmpName u) bro.sha with
          | error e =>
            rw [withTmpRef_create_error hu hcr] at h6
            simp at h6
          | ok tmpRef =>
            have href : tmpRef.ref = tmpName u := hecho _ _ _ hcr
            rw [withTmpRef_created hu hcr] at h6
            simp only [List.mem_cons, List.mem_append,
              List.mem_singleton, href] at h6
            rcases h6 with h7 | h7 | h7
            · exact absurd h7 (by simp)
            · have hres : (rebaseInner env pr bco.sha bco.tree cs
                  (tmpName u)).1 ≠ Except.ok () := by
                intro hk
                apply h
                simp only [step_of_ok hbr, step_of_ok hbc, step_of_ok hlc,
                  withTmpRef_created hu hcr, href, hk]
              exact rebaseInner_no_real_update (hfresh u hu) hres sha fo h7
            · exact absurd h7 (by simp)

end Bulldozer

namespace Bulldozer

theorem rebaseInner_reads {env : Env} {pr : PullReq} {bsha btree : String}
    {cs : List RepoCommit} {tmpRef : String} {e : Event}
    (h : e ∈ (rebaseInner env pr bsha btree cs tmpRef).2) :
    (∀ r, e = Event.getRefE r → r = realRef pr) ∧
    (∀ r sh b, e ≠ Event.createRefE r sh b) := by
  unfold rebaseInner at h
  rcases step_mem h with h1 | ⟨fsha, hcp, h2⟩
  · have hp := cpcor_events h1
    constructor
    · intro r hr; subst hr; simp [pickEv] at hp
    · intro r sh b hr; subst hr; simp [pickEv] at hp
  · rcases step_mem h2 with h3 | ⟨a, hchk, h4⟩
    · rw [checkSameHead_trace] at h3
      simp only [List.mem_singleton] at h3
      subst h3
      refine ⟨?_, ?_⟩
      · intro r hr
        have := (Event.getRefE.inj hr).symm
        simpa [realRef] using this
      · intro r sh b hr; cases hr
    · rcases step_mem h4 with h5 | ⟨ro, hup, h6⟩
      · simp only [callUpdateRef, List.mem_singleton] at h5
        subst h5
        exact ⟨(fun r hr => by cases hr), (fun r sh b hr => by cases hr)⟩
      · simp at h6

/-- Every GetRef the engine issues targets the normalized base ref or the
normalized head ref, and every CreateRef targets the temporary ref name
built with makeHeadsRef; the cherry-pick phase issues neither call. -/
theorem rebase_trace_reads {env : Env} {pr : PullReq} {e : Event}
    (h : e ∈ (rebase env pr).2) :
    (∀ r, e = Event.getRefE r →
       r = makeHeadsRef pr.baseRef ∨ r = realRef pr) ∧
    (∀ r sh b, e = Event.createRefE r sh b →
       ∃ u, env.newUUID = Except.ok u ∧ r = tmpName u) := by
  unfold rebase at h
  rcases step_mem h with h1 | ⟨bro, hbr, h2⟩
  · simp only [callGetRef, List.mem_singleton] at h1
    subst h1
    exact ⟨(fun r hr => Or.inl (Event.getRefE.inj hr).symm),
           (fun r sh b hr => by cases hr)⟩
  · rcases step_mem h2 with h3 | ⟨bco, hbc, h4⟩
    · simp only [callGetCommit, List.mem_singleton] at h3
      subst h3
      exact ⟨(fun r hr => by cases hr), (fun r sh b hr => by cases hr)⟩
    · rcases step_mem h4 with h5 | ⟨cs, hlc, h6⟩
      · simp only [callListCommits, List.mem_singleton] at h5
        subst h5
        exact ⟨(fun r hr => by cases hr), (fun r sh b hr => by cases hr)⟩
      · cases hu : env.newUUID with
        | error e0 => rw [withTmpRef_uuid_error hu] at h6; simp at h6
        | ok u =>
          cases hcr : env.createRef (tmpName u) bro.sha with
          | error e0 =>
            rw [withTmpRef_create_error hu hcr] at h6
            simp only [List.mem_singleton] at h6
            subst h6
            exact ⟨(fun r hr => by cases hr),
                   (fun r sh b hr => ⟨u, rfl, (Event.createRefE.inj hr).1.symm⟩)⟩
          | ok tmpRef =>
            rw [withTmpRef_created hu hcr] at h6
            simp only [List.mem_cons, List.mem_append,
              List.mem_singleton] at h6
            rcases h6 with h7 | h7 | h7
            · subst h7
              exact ⟨(fun r hr => by cases hr),
                     (fun r sh b hr => ⟨u, rfl, (Event.createRefE.inj hr).1.symm⟩)⟩
            · exact ⟨(fun r hr => Or.inr ((rebaseInner_reads h7).1 r hr)),
                     (fun r sh b hr => absurd hr ((rebaseInner_reads h7).2 r sh b))⟩
            · rcases h7 with h7 | h7
              · subst h7
                exact ⟨(fun r hr => by cases hr), (fun r sh b hr => by cases hr)⟩
              · simp at h7

end Bulldozer

namespace Bulldozer

/- ------------------------------------------------------------------ -/
/- Concrete objects used by witnesses.                                 -/
/- ------------------------------------------------------------------ -/

/-- A pull-request commit used in concrete evaluations (env0 lists it). -/
def c0 : RepoCommit :=
  { sha := "c0", author := "a", committer := "m", message := "fix",
    parents := ["p0"] }

/-- An inner function that always fails, to exercise the failure path of
withTmpRef. -/
def f0 : String → Except GErr Unit × List Event :=
  fun r => (Except.error (GErr.api ("inner failed")), [Event.getRefE r])

/- ------------------------------------------------------------------ -/
/- C2                                                                  -/
/- ------------------------------------------------------------------ -/

/-- C2: whenever the temporary ref was successfully created, withTmpRef
passes the inner function's result through unchanged and its last remote
call is a DeleteRef of that temporary ref — on every control path, whether
the inner function succeeds or fails (the inner function `f` is arbitrary),
so the temporary ref does not outlive the attempt. -/
theorem c2_tmp_ref_deleted {α : Type} (env : Env) (headSHA : String)
    (f : String → Except GErr α × List Event) (u : String) (tmpRef : RefObj)
    (hu : env.newUUID = Except.ok u)
    (hcr : env.createRef (tmpName u) headSHA = Except.ok tmpRef) :
    (withTmpRef env headSHA f).1 = (f tmpRef.ref).1 ∧
    (withTmpRef env headSHA f).2 =
      Event.createRefE (tmpName u) headSHA true ::
        ((f tmpRef.ref).2 ++ [Event.deleteRefE tmpRef.ref]) ∧
    (withTmpRef env headSHA f).2.getLast? =
      some (Event.deleteRefE tmpRef.ref) := by
  have h := withTmpRef_created (f := f) hu hcr
  refine ⟨by rw [h], by rw [h], ?_⟩
  rw [h]
  show (Event.createRefE (tmpName u) headSHA true ::
    ((f tmpRef.ref).2 ++ [Event.deleteRefE tmpRef.ref])).getLast? = _
  rw [← List.cons_append, List.getLast?_concat]

/-- C2 witness: in env0 with a failing inner function, the failure is
propagated and the temporary ref is still deleted last. -/
theorem c2_witness :
    (withTmpRef env0 ("bsha") f0).1 = Except.error (GErr.api ("inner failed")) ∧
    (withTmpRef env0 ("bsha") f0).2.getLast? =
      some (Event.deleteRefE (tmpName ("u0"))) := by
  have h := c2_tmp_ref_deleted env0 ("bsha") f0 ("u0")
    { ref := tmpName ("u0"), sha := ("bsha") } rfl rfl
  exact ⟨h.1, h.2.2⟩

/- ------------------------------------------------------------------ -/
/- C7                                                                  -/
/- ------------------------------------------------------------------ -/

/-- C7 counterexample: the surrogate commit's message is
"sibling of " ++ C's SHA, not C's own message, so the claim that the
surrogate carries C's message fails on the very first commit created. -/
theorem c7_counterexample :
    (createSiblingCommit env0 (tmpName ("u0")) ("tree0") c0).2.head? =
      some (Event.createCommitE
        { author := ("a"), committer := ("m"), message := ("sibling of c0"),
          tree := ("tree0"), parents := [("p0")] }) ∧
    ("sibling of c0" : String) ≠ c0.message := by
  exact ⟨rfl, by decide⟩

/-- C7 (amended): for every commit C replayed, step 1 creates a surrogate
commit whose tree is the accumulated tree, whose parent list is C's
original parent list, whose author and committer are C's, and whose
message is "sibling of " ++ C's SHA (not C's message); when the creation
and the subsequent force-update of the temporary ref both succeed, those
are exactly the two remote calls performed, in that order. -/
theorem c7_surrogate_commit (env : Env) (ref tree : String) (c : RepoCommit) :
    (createSiblingCommit env ref tree c).2.head? =
      some (Event.createCommitE
        { author := c.author, committer := c.committer,
          message := "sibling of " ++ c.sha, tree := tree,
          parents := c.parents }) ∧
    (∀ sib ro,
      env.createCommit
        { author := c.author, committer := c.committer,
          message := "sibling of " ++ c.sha, tree := tree,
          parents := c.parents } = Except.ok sib →
      env.updateRef ref sib.sha true = Except.ok ro →
      createSiblingCommit env ref tree c =
        (Except.ok (),
         [Event.createCommitE
            { author := c.author, committer := c.committer,
              message := "sibling of " ++ c.sha, tree := tree,
              parents := c.parents },
          Event.updateRefE ref sib.sha true true])) := by
  constructor
  · unfold createSiblingCommit
    cases hcc : env.createCommit
        { author := c.author, committer := c.committer,
          message := "sibling of " ++ c.sha, tree := tree,
          parents := c.parents } with
    | ok sib =>
      rw [step_of_ok (show (callCreateCommit env _).1 = Except.ok sib from hcc)]
      simp [callCreateCommit]
    | error e =>
      rw [step_of_error
        (show (callCreateCommit env _).1 = Except.error e from hcc)]
      simp [callCreateCommit]
  · intro sib ro hsib hup
    unfold createSiblingCommit
    rw [step_of_ok (show (callCreateCommit env _).1 = Except.ok sib from hsib)]
    rw [step_of_ok
      (show (callUpdateRef env ref sib.sha true).1 = Except.ok ro from hup)]
    simp [callCreateCommit, callUpdateRef, hup, exOk]

/-- C7 witness: concrete surrogate creation in env0. -/
theorem c7_witness :
    createSiblingCommit env0 (tmpName ("u0")) ("tree0") c0 =
      (Except.ok (),
       [Event.createCommitE
          { author := ("a"), committer := ("m"),
            message := ("sibling of c0"), tree := ("tree0"),
            parents := [("p0")] },
        Event.updateRefE (tmpName ("u0")) ("c:sibling of c0") true true]) :=
  (c7_surrogate_commit env0 (tmpName ("u0")) ("tree0") c0).2
    { sha := ("c:sibling of c0"), tree := ("tree0") }
    { ref := tmpName ("u0"), sha := ("c:sibling of c0") } rfl rfl

end Bulldozer

namespace Bulldozer

/- ------------------------------------------------------------------ -/
/- C8                                                                  -/
/- ------------------------------------------------------------------ -/

/-- C8: after the merge of C into the temporary ref succeeds, the engine
creates a new commit whose tree is the merge result's tree, whose author,
committer and message are C's, and whose parent list is exactly the single
commit headSHA — not the two-parent merge commit — and that new commit's
SHA, together with the merge tree, is what the loop threads into the next
iteration. -/
theorem c8_cherry_pick_linearizes (env : Env) (ref headSHA tree : String)
    (c : RepoCommit) (trs : List Event) (res : MergeRes) (nc : CommitObj)
    (ro : RefObj)
    (hs : createSiblingCommit env ref tree c = (Except.ok (), trs))
    (hm : env.merge ref c.sha = Except.ok res)
    (hc : env.createCommit
      { author := c.author, committer := c.committer, message := c.message,
        tree := res.tree, parents := [headSHA] } = Except.ok nc)
    (hu : env.updateRef ref nc.sha true = Except.ok ro) :
    cherryPickCommit env ref headSHA tree c =
      (Except.ok (nc.sha, res.tree),
       trs ++ [Event.mergeE ref c.sha true,
               Event.createCommitE
                 { author := c.author, committer := c.committer,
                   message := c.message, tree := res.tree,
                   parents := [headSHA] },
               Event.updateRefE ref nc.sha true true]) ∧
    (∀ rest, cherryPickLoop env ref headSHA tree (c :: rest) =
       ((cherryPickLoop env ref nc.sha res.tree rest).1,
        (trs ++ [Event.mergeE ref c.sha true,
                 Event.createCommitE
                   { author := c.author, committer := c.committer,
                     message := c.message, tree := res.tree,
                     parents := [headSHA] },
                 Event.updateRefE ref nc.sha true true]) ++
          (cherryPickLoop env ref nc.sha res.tree rest).2)) := by
  have hmain : cherryPickCommit env ref headSHA tree c =
      (Except.ok (nc.sha, res.tree),
       trs ++ [Event.mergeE ref c.sha true,
               Event.createCommitE
                 { author := c.author, committer := c.committer,
                   message := c.message, tree := res.tree,
                   parents := [headSHA] },
               Event.updateRefE ref nc.sha true true]) := by
    unfold cherryPickCommit
    rw [hs]
    rw [step_of_ok (r := (Except.ok (), trs)) rfl]
    rw [step_of_ok (show (callMerge env ref c.sha).1 = Except.ok res from hm)]
    rw [step_of_ok (show (callCreateCommit env _).1 = Except.ok nc from hc)]
    rw [step_of_ok
      (show (callUpdateRef env ref nc.sha true).1 = Except.ok ro from hu)]
    simp [callMerge, callCreateCommit, callUpdateRef, hm, hu, exOk]
  refine ⟨hmain, fun rest => ?_⟩
  have hstep : cherryPickLoop env ref headSHA tree (c :: rest) =
      step (cherryPickCommit env ref headSHA tree c) fun p =>
        cherryPickLoop env ref p.1 p.2 rest := by
    simp [cherryPickLoop]
  rw [hstep, hmain]
  rw [step_of_ok (r := (Except.ok (nc.sha, res.tree), _)) rfl]

/-- C8 witness: one concrete cherry-pick in env0. -/
theorem c8_witness :
    cherryPickCommit env0 (tmpName ("u0")) ("h0") ("tree0") c0 =
      (Except.ok (("c:fix"), ("t:c0")),
       [Event.createCommitE
          { author := ("a"), committer := ("m"),
            message := ("sibling of c0"), tree := ("tree0"),
            parents := [("p0")] },
        Event.updateRefE (tmpName ("u0")) ("c:sibling of c0") true true,
        Event.mergeE (tmpName ("u0")) ("c0") true,
        Event.createCommitE
          { author := ("a"), committer := ("m"), message := ("fix"),
            tree := ("t:c0"), parents := [("h0")] },
        Event.updateRefE (tmpName ("u0")) ("c:fix") true true]) :=
  (c8_cherry_pick_linearizes env0 (tmpName ("u0")) ("h0") ("tree0") c0
    [Event.createCommitE
       { author := ("a"), committer := ("m"),
         message := ("sibling of c0"), tree := ("tree0"),
         parents := [("p0")] },
     Event.updateRefE (tmpName ("u0")) ("c:sibling of c0") true true]
    { sha := ("m:c0"), tree := ("t:c0") }
    { sha := ("c:fix"), tree := ("t:c0") }
    { ref := tmpName ("u0"), sha := ("c:fix") }
    rfl rfl rfl rfl).1

end Bulldozer

namespace Bulldozer

/- ------------------------------------------------------------------ -/
/- C5, C6, C4: the failure registry and the tick body.                 -/
/- ------------------------------------------------------------------ -/

/-- Empty failure registry. -/
def reg0 : Reg := fun _ => none

/-- Registry with a failure for pull request 7 recorded at time 0. -/
def reg1 : Reg := fun k => if k = 7 then some 0 else none

/-- A successful rebase attempt performing no remote call (for tick-body
evaluation). -/
def att0 : Unit → Bool × Option GErr × List Event :=
  fun _ => (false, none, [])

/-- A failing rebase attempt. -/
def attFail : Unit → Bool × Option GErr × List Event :=
  fun _ => (false, some (GErr.api ("boom")), [])

/-- The outcome of a contended interlockedRebase as update.go's error
branch sees it: an error and no remote call. -/
def attLocked : Unit → Bool × Option GErr × List Event :=
  fun _ => (true, some GErr.alreadyLocked, [])

/-- C5: with a failure for pull request P recorded at lastFail, every tick
whose current time is strictly before lastFail plus 60 minutes ends in
cooldownAbort — no rebase attempt is made (empty remote trace), registry
and active set unchanged; a tick at or after that boundary proceeds to the
rebase attempt (the step is exactly runAttempt). -/
theorem c5_cooldown (reg : Reg) (active : List String) (locator : String)
    (now lastFail : Int) (prNum : Nat)
    (attempt : Unit → Bool × Option GErr × List Event)
    (h : reg prNum = some lastFail) :
    (now < lastFail + failThresholdMinutes * nsPerMinute →
       updateCycleStep reg active locator now prNum attempt =
         (reg, active, CycleAction.cooldownAbort, [])) ∧
    (lastFail + failThresholdMinutes * nsPerMinute ≤ now →
       updateCycleStep reg active locator now prNum attempt =
         runAttempt reg active locator now prNum attempt) := by
  unfold updateCycleStep
  rw [h]
  simp only [failThresholdMinutes, nsPerMinute]
  constructor
  · intro hlt
    rw [if_pos (by omega)]
  · intro hge
    rw [if_neg (by omega)]

/-- C5 witness: with a failure at time 0, the tick at 1 ns is suppressed
and the tick at exactly 60 minutes proceeds to the attempt. -/
theorem c5_witness :
    updateCycleStep reg1 [] ("loc") 1 7 att0 =
      (reg1, [], CycleAction.cooldownAbort, []) ∧
    updateCycleStep reg1 [] ("loc") 3600000000000 7 att0 =
      runAttempt reg1 [] ("loc") 3600000000000 7 att0 :=
  ⟨(c5_cooldown reg1 [] ("loc") 1 0 7 att0 rfl).1 (by decide),
   (c5_cooldown reg1 [] ("loc") 3600000000000 0 7 att0 rfl).2 (by decide)⟩

/-- C6 counterexample: a cycle in which the rebase succeeds does not clear
the FailureRegistry entry — the old failure timestamp for pull request 7
survives the successful tick. -/
theorem c6_counterexample :
    (updateCycleStep reg1 [] ("loc") 3600000000000 7 att0).2.2.1 =
      CycleAction.succeeded ∧
    (updateCycleStep reg1 [] ("loc") 3600000000000 7 att0).1 7 = some 0 := by
  exact ⟨rfl, rfl⟩

/-- C6 (amended): on a successful rebase (and on lock contention) the
update cycle leaves the FailureRegistry unchanged — entries are cleared
only by the explicit RemoveFailedPR; on a failed rebase the current time is
written for P and all other entries are untouched. -/
theorem c6_registry (reg : Reg) (active : List String) (locator : String)
    (now : Int) (prNum : Nat)
    (attempt : Unit → Bool × Option GErr × List Event) :
    ((attempt ()).2.1 = none →
       (runAttempt reg active locator now prNum attempt).1 = reg) ∧
    (∀ e, (attempt ()).2.1 = some e →
       (runAttempt reg active locator now prNum attempt).1 prNum = some now ∧
       ∀ k, k ≠ prNum →
         (runAttempt reg active locator now prNum attempt).1 k = reg k) ∧
    (RemoveFailedPR reg prNum prNum = none ∧
     ∀ k, k ≠ prNum → RemoveFailedPR reg prNum k = reg k) := by
  refine ⟨?_, ?_, by simp [RemoveFailedPR], fun k hk => by simp [RemoveFailedPR, hk]⟩
  · intro hn
    simp only [runAttempt, hn]
    split <;> rfl
  · intro e he
    simp only [runAttempt, he]
    exact ⟨by simp, fun k hk => by simp [hk]⟩

/-- C6 witness: success keeps the old entry, failure writes the new time,
RemoveFailedPR deletes. -/
theorem c6_witness :
    (runAttempt reg1 [] ("loc") 5 7 att0).1 7 = reg1 7 ∧
    (runAttempt reg1 [] ("loc") 5 7 attFail).1 7 = some 5 ∧
    RemoveFailedPR reg1 7 7 = none := by
  refine ⟨?_, ?_, ?_⟩
  · rw [(c6_registry reg1 [] ("loc") 5 7 att0).1 rfl]
  · exact ((c6_registry reg1 [] ("loc") 5 7 attFail).2.1
      (GErr.api ("boom")) rfl).1
  · exact (c6_registry reg1 [] ("loc") 5 7 attFail).2.2.1

/-- C4: evaluating the code at the failing input.  rebase.go's
interlockedRebase signals lock contention as an error value ("PR already
locked") — immediately and with no remote call — and update.go's
outcome handling writes a failure timestamp for the pull request whenever
the returned error is non-nil, so a contended attempt is recorded in the
FailureRegistry as a failure. -/
theorem c4_contention_recorded :
    interlockedRebase env0 true pr0 =
      (true, (Except.error GErr.alreadyLocked, [])) ∧
    (runAttempt reg0 [] ("loc") 9 7 attLocked).1 7 = some 9 ∧
    (runAttempt reg0 [] ("loc") 9 7 attLocked).2.2.1 =
      CycleAction.recordedFailure := by
  exact ⟨rfl, rfl, rfl⟩

end Bulldozer

namespace Bulldozer

/- ------------------------------------------------------------------ -/
/- C9: oldest-first selection.                                         -/
/- ------------------------------------------------------------------ -/

/-- A candidate created at time 5. -/
def p9a : PWC := { locator := "pra", createdAt := 5 }

/-- A candidate created later, at time 9. -/
def p9b : PWC := { locator := "prb", createdAt := 9 }

/-- C9 counterexample: with the Global Rebase Lock held (first argument)
but the active-update registry empty, UpdateOldestPullRequest still starts
an update cycle — the guard is ActivePRPresent on the handler's registry,
and the rebase lock is never consulted, so "does nothing when the Global
Rebase Lock is already held" fails. -/
theorem c9_counterexample :
    UpdateOldestPullRequest true [] [p9a] = SelectOutcome.started p9a := by
  rfl

/-- C9 (amended): UpdateOldestPullRequest does nothing when the candidate
list is empty or when the active-update registry is non-empty; the global
rebase lock is not consulted (the result is independent of it).  Otherwise
it starts an update cycle for a candidate with the earliest creation
timestamp.  The chosen pull request is marked active not at selection time
but by the update cycle: AddActivePR is invoked as the onSuccess callback
exactly when the rebase attempt succeeds. -/
theorem c9_oldest_first :
    (∀ lh active, UpdateOldestPullRequest lh active [] = SelectOutcome.idle) ∧
    (∀ lh active prs, ActivePRPresent active = true →
       UpdateOldestPullRequest lh active prs = SelectOutcome.idle) ∧
    (∀ lh lh' active prs,
       UpdateOldestPullRequest lh active prs =
         UpdateOldestPullRequest lh' active prs) ∧
    (∀ lh active prs, prs ≠ [] → ActivePRPresent active = false →
       ∃ p, UpdateOldestPullRequest lh active prs = SelectOutcome.started p ∧
         p ∈ prs ∧ ∀ q ∈ prs, p.createdAt ≤ q.createdAt) ∧
    (∀ reg active locator now prNum attempt,
       (attempt ()).2.1 = none → (attempt ()).1 = false →
       (runAttempt reg active locator now prNum attempt).2.1 =
         AddActivePR active locator) ∧
    (∀ reg active locator now prNum attempt e,
       (attempt ()).2.1 = some e →
       (runAttempt reg active locator now prNum attempt).2.1 = active) := by
  refine ⟨fun lh active => rfl, ?_, fun lh lh' active prs => rfl, ?_, ?_, ?_⟩
  · intro lh active prs h
    unfold UpdateOldestPullRequest
    simp [h]
  · intro lh active prs hne hact
    cases prs with
    | nil => exact absurd rfl hne
    | cons p0 ps =>
      unfold UpdateOldestPullRequest
      rw [if_neg (by simp)]
      rw [if_neg (by simp [hact])]
      cases hsort : List.insertionSort byCreated (p0 :: ps) with
      | nil =>
        exfalso
        have hperm := List.perm_insertionSort byCreated (p0 :: ps)
        rw [hsort] at hperm
        exact absurd hperm.symm (by simp)
      | cons p rest =>
        refine ⟨p, rfl, ?_, ?_⟩
        · have hperm := List.perm_insertionSort byCreated (p0 :: ps)
          rw [hsort] at hperm
          exact hperm.mem_iff.mp (List.mem_cons_self p rest)
        · intro q hq
          have hperm := List.perm_insertionSort byCreated (p0 :: ps)
          rw [hsort] at hperm
          have hsorted := List.sorted_insertionSort byCreated (p0 :: ps)
          rw [hsort] at hsorted
          rcases List.mem_cons.mp (hperm.mem_iff.mpr hq) with h | h
          · subst h; exact le_refl _
          · exact (List.sorted_cons.mp hsorted).1 q h
  · intro reg active locator now prNum attempt hn hl
    simp only [runAttempt, hn, hl]
    rfl
  · intro reg active locator now prNum attempt e he
    simp only [runAttempt, he]

/-- C9 witness: with two candidates and an idle registry the older one (at
time 5) is selected, and a successful attempt marks the locator active. -/
theorem c9_witness :
    (∃ p, UpdateOldestPullRequest false [] [p9b, p9a] =
        SelectOutcome.started p ∧ p ∈ [p9b, p9a] ∧
        ∀ q ∈ [p9b, p9a], p.createdAt ≤ q.createdAt) ∧
    (runAttempt reg0 [] ("pra") 0 7 att0).2.1 = AddActivePR [] ("pra") :=
  ⟨c9_oldest_first.2.2.2.1 false [] [p9b, p9a] (by simp) rfl,
   c9_oldest_first.2.2.2.2.1 reg0 [] ("pra") 0 7 att0 rfl rfl⟩

end Bulldozer

namespace Bulldozer

/- ------------------------------------------------------------------ -/
/- C3: mutual exclusion of the global rebase lock.                     -/
/- ------------------------------------------------------------------ -/

/-- Inductive invariant of the two-thread lock system: the lock is held
exactly when some thread is in its critical section, at most one thread is
in the critical section, and a thread that has not entered the critical
section (still before its CAS, or returned with alreadyLocked) has
performed no remote mutation. -/
def LInv (s : LSys) : Prop :=
  (s.lock = true ↔ (s.a = ThState.crit ∨ s.b = ThState.crit)) ∧
  ¬(s.a = ThState.crit ∧ s.b = ThState.crit) ∧
  ((s.a = ThState.start ∨ s.a = ThState.doneLocked) → s.amuts = 0) ∧
  ((s.b = ThState.start ∨ s.b = ThState.doneLocked) → s.bmuts = 0)

theorem lreach_inv {s : LSys} (h : LReach s) : LInv s := by
  induction h with
  | init => unfold LInv initSys; decide
  | next s' t hs hstep ih =>
    obtain ⟨i1, i2, i3, i4⟩ := ih
    cases hstep with
    | acqFailA ha hl =>
      have hbc : s'.b = ThState.crit := by
        rcases i1.mp hl with h' | h'
        · rw [ha] at h'; cases h'
        · exact h'
      refine ⟨⟨fun _ => Or.inr hbc, fun _ => hl⟩, ?_, ?_, i4⟩
      · intro hc; cases hc.1
      · intro _; exact i3 (Or.inl ha)
    | acqOkA ha hl =>
      have hbn : s'.b ≠ ThState.crit := by
        intro hb
        rw [i1.mpr (Or.inr hb)] at hl
        cases hl
      refine ⟨⟨fun _ => Or.inl rfl, fun _ => rfl⟩, ?_, ?_, i4⟩
      · intro hc; exact hbn hc.2
      · intro hc; rcases hc with hc | hc <;> cases hc
    | mutA ha =>
      refine ⟨i1, i2, ?_, i4⟩
      intro hc; rcases hc with hc | hc <;> rw [ha] at hc <;> cases hc
    | relA ha =>
      have hbn : s'.b ≠ ThState.crit := fun hb => i2 ⟨ha, hb⟩
      refine ⟨⟨fun hf => absurd hf (by simp), ?_⟩, ?_, ?_, i4⟩
      · intro hc
        rcases hc with hc | hc
        · cases hc
        · exact absurd hc hbn
      · intro hc; cases hc.1
      · intro hc; rcases hc with hc | hc <;> cases hc
    | acqFailB hb hl =>
      have hac : s'.a = ThState.crit := by
        rcases i1.mp hl with h' | h'
        · exact h'
        · rw [hb] at h'; cases h'
      refine ⟨⟨fun _ => Or.inl hac, fun _ => hl⟩, ?_, i3, ?_⟩
      · intro hc; cases hc.2
      · intro _; exact i4 (Or.inl hb)
    | acqOkB hb hl =>
      have han : s'.a ≠ ThState.crit := by
        intro hx
        rw [i1.mpr (Or.inl hx)] at hl
        cases hl
      refine ⟨⟨fun _ => Or.inr rfl, fun _ => rfl⟩, ?_, i3, ?_⟩
      · intro hc; exact han hc.1
      · intro hc; rcases hc with hc | hc <;> cases hc
    | mutB hb =>
      refine ⟨i1, i2, i3, ?_⟩
      intro hc; rcases hc with hc | hc <;> rw [hb] at hc <;> cases hc
    | relB hb =>
      have han : s'.a ≠ ThState.crit := fun hx => i2 ⟨hx, hb⟩
      refine ⟨⟨fun hf => absurd hf (by simp), ?_⟩, ?_, i3, ?_⟩
      · intro hc
        rcases hc with hc | hc
        · exact absurd hc han
        · cases hc
      · intro hc; cases hc.2
      · intro hc; rcases hc with hc | hc <;> cases hc

/-- C3: in every reachable interleaving of two concurrent interlockedRebase
calls, at most one call is inside its remote-mutation sequence; a call that
lost the CAS (doneLocked) has performed no remote mutation; when neither
call is in the critical section the lock is free (so the winner released it
before returning); and at the function level a contended call returns the
alreadyLocked error immediately with an empty remote trace, while an
uncontended call returns with the lock released. -/
theorem c3_single_flight (s : LSys) (hs : LReach s) (env : Env)
    (pr : PullReq) :
    ¬(s.a = ThState.crit ∧ s.b = ThState.crit) ∧
    (s.a = ThState.doneLocked → s.amuts = 0) ∧
    (s.b = ThState.doneLocked → s.bmuts = 0) ∧
    (s.a ≠ ThState.crit → s.b ≠ ThState.crit → s.lock = false) ∧
    interlockedRebase env true pr =
      (true, (Except.error GErr.alreadyLocked, [])) ∧
    (interlockedRebase env false pr).1 = false := by
  obtain ⟨i1, i2, i3, i4⟩ := lreach_inv hs
  refine ⟨i2, fun h => i3 (Or.inr h), fun h => i4 (Or.inr h), ?_, rfl, rfl⟩
  intro han hbn
  cases hl : s.lock with
  | false => rfl
  | true =>
    rcases i1.mp hl with h' | h'
    · exact absurd h' han
    · exact absurd h' hbn

/-- C3 witness: the initial state, and the concrete lock behavior of
interlockedRebase in env0. -/
theorem c3_witness :
    ¬(initSys.a = ThState.crit ∧ initSys.b = ThState.crit) ∧
    (initSys.a = ThState.doneLocked → initSys.amuts = 0) ∧
    (initSys.b = ThState.doneLocked → initSys.bmuts = 0) ∧
    (initSys.a ≠ ThState.crit → initSys.b ≠ ThState.crit →
      initSys.lock = false) ∧
    interlockedRebase env0 true pr0 =
      (true, (Except.error GErr.alreadyLocked, [])) ∧
    (interlockedRebase env0 false pr0).1 = false :=
  c3_single_flight initSys LReach.init env0 pr0

end Bulldozer

namespace Bulldozer

/- ------------------------------------------------------------------ -/
/- C10: makeHeadsRef normalization.                                    -/
/- ------------------------------------------------------------------ -/

/-- C10 counterexample: with X := "refs/x", the bare input X maps to
"heads/x", not to "heads/" ++ X = "heads/refs/x" — so the inputs
"refs/heads/X", "heads/X" and "X" do not all map to "heads/X". -/
theorem c10_counterexample :
    makeHeadsRef ("refs/x") ≠ branchPfx ++ ("refs/x") ∧
    makeHeadsRef (("refs/heads/" : String) ++ ("refs/x")) =
      branchPfx ++ ("refs/x") := by
  exact ⟨by decide, makeHeadsRef_refs_heads ("refs/x")⟩

/-- C10 (amended): makeHeadsRef is idempotent on every string; the inputs
"refs/heads/X" and "heads/X" always normalize to "heads/" ++ X, and the
bare input X does too provided X itself does not begin with "refs/" or
"heads/"; and every ref name the rebase engine passes to GetRef and
CreateRef, as well as the real head ref targeted by the final UpdateRef,
is a makeHeadsRef fixed point. -/
theorem c10_makeHeadsRef_normalizes :
    (∀ s, makeHeadsRef (makeHeadsRef s) = makeHeadsRef s) ∧
    (∀ X : String,
       makeHeadsRef (("refs/heads/" : String) ++ X) = branchPfx ++ X ∧
       makeHeadsRef (branchPfx ++ X) = branchPfx ++ X) ∧
    (∀ X : String, refsPfx.data.isPrefixOf X.data = false →
       branchPfx.data.isPrefixOf X.data = false →
       makeHeadsRef X = branchPfx ++ X) ∧
    (∀ env pr e, e ∈ (rebase env pr).2 →
       (∀ r, e = Event.getRefE r → makeHeadsRef r = r) ∧
       (∀ r sh b, e = Event.createRefE r sh b → makeHeadsRef r = r)) ∧
    (∀ pr : PullReq, makeHeadsRef (realRef pr) = realRef pr) := by
  refine ⟨makeHeadsRef_idem,
          (fun X => ⟨makeHeadsRef_refs_heads X, makeHeadsRef_heads X⟩),
          (fun X h1 h2 => makeHeadsRef_plain h1 h2), ?_,
          (fun pr => makeHeadsRef_idem pr.headRef)⟩
  intro env pr e he
  have h := rebase_trace_reads he
  constructor
  · intro r hr
    rcases h.1 r hr with h' | h'
    · rw [h']; exact makeHeadsRef_idem pr.baseRef
    · rw [h']; exact makeHeadsRef_idem pr.headRef
  · intro r sh b hr
    obtain ⟨u, _, hru⟩ := h.2 r sh b hr
    rw [hru]; exact makeHeadsRef_idem ("tmp/rebase-" ++ u)

/-- C10 witness: idempotence and normalization at the concrete ref "x",
and the concrete engine ref names of a full rebase in env0. -/
theorem c10_witness :
    makeHeadsRef (makeHeadsRef ("x")) = makeHeadsRef ("x") ∧
    makeHeadsRef ("x") = branchPfx ++ ("x") ∧
    makeHeadsRef (("refs/heads/" : String) ++ ("x")) = branchPfx ++ ("x") :=
  ⟨c10_makeHeadsRef_normalizes.1 ("x"),
   c10_makeHeadsRef_normalizes.2.2.1 ("x") (by decide) (by decide),
   (c10_makeHeadsRef_normalizes.2.1 ("x")).1⟩

end Bulldozer

namespace Bulldozer

/- ------------------------------------------------------------------ -/
/- C1: atomicity of the real branch update.                            -/
/- ------------------------------------------------------------------ -/

/-- C1: (i) when a rebase attempt returns an error, no successful update
of the real pull-request branch ref appears in its remote trace — the real
branch is never mutated on failure; (ii) whenever the trace contains a
successful force-update of the real branch ref, the attempt returned ok,
the re-fetched head SHA equals the SHA captured at attempt start, and the
trace decomposes so that the real-branch update is followed only by the
temporary-ref deletion, with the successful fast-forward-only consistency
update of the temporary ref and a successful merge for every original
commit all occurring before it.  Hypotheses: the remote echoes the created
ref's name (hecho) and the fresh uuid temporary name differs from the real
head ref (hfresh). -/
theorem c1_atomicity (env : Env) (pr : PullReq)
    (hecho : ∀ n s ro, env.createRef n s = Except.ok ro → ro.ref = n)
    (hfresh : ∀ u, env.newUUID = Except.ok u → tmpName u ≠ realRef pr) :
    (∀ e, (rebase env pr).1 = Except.error e →
       ∀ sha fo, Event.updateRefE (realRef pr) sha fo true ∉
         (rebase env pr).2) ∧
    (∀ sha, Event.updateRefE (realRef pr) sha true true ∈ (rebase env pr).2 →
       (rebase env pr).1 = Except.ok () ∧
       (∃ hro, env.getRef (realRef pr) = Except.ok hro ∧
          hro.sha = pr.headSHA) ∧
       (∃ u pre, env.newUUID = Except.ok u ∧
          (rebase env pr).2 =
            pre ++ [Event.updateRefE (realRef pr) sha true true,
                    Event.deleteRefE (tmpName u)] ∧
          Event.updateRefE (tmpName u) sha false true ∈ pre ∧
          (∀ cs, env.listCommits pr.number = Except.ok cs →
             ∀ c ∈ cs, Event.mergeE (tmpName u) c.sha true ∈ pre))) := by
  constructor
  · intro e herr sha fo hmem
    exact rebase_no_real_update hecho hfresh (by simp [herr]) sha fo hmem
  · intro sha hmem
    have hok : (rebase env pr).1 = Except.ok () := by
      by_contra hk
      exact rebase_no_real_update hecho hfresh hk sha true hmem
    obtain ⟨bro, bco, cs, u, fsha, hbr, hbc, hlc, hu, hcp, hhead, hshape⟩ :=
      rebase_ok_shape hecho hok
    have hne := hfresh u hu
    -- pin down the sha of the membership hypothesis: it is the final update
    have hsha : sha = fsha := by
      rw [hshape] at hmem
      rcases List.mem_append.mp hmem with h1 | h1
      · rcases List.mem_append.mp h1 with h2 | h2
        · simp at h2
        · have hp := cpcor_events h2
          simp only [pickEv] at hp
          exact absurd hp.symm hne
      · simpa using h1
    subst hsha
    refine ⟨hok, hhead, u,
      [Event.getRefE (makeHeadsRef pr.baseRef), Event.getCommitE bro.sha,
       Event.listCommitsE pr.number,
       Event.createRefE (tmpName u) bro.sha true] ++
        (cherryPickCommitsOnRef env (tmpName u) bco.sha bco.tree cs).2 ++
        [Event.getRefE (realRef pr)], hu, ?_, ?_, ?_⟩
    · rw [hshape]
      simp
    · apply List.mem_append_left
      apply List.mem_append_right
      exact (cpcor_ok hcp).1
    · intro cs' hcs' c hc
      have : cs' = cs := by
        rw [hlc] at hcs'
        exact (Except.ok.inj hcs').symm
      subst this
      apply List.mem_append_left
      apply List.mem_append_right
      exact (cpcor_ok hcp).2 c hc

/-- C1 witness: a fully successful rebase in env0 — the attempt returns ok
and the re-fetched head equals the captured head SHA. -/
theorem c1_witness :
    (rebase env0 pr0).1 = Except.ok () ∧
    (∃ hro, env0.getRef (realRef pr0) = Except.ok hro ∧
       hro.sha = pr0.headSHA) := by
  have h := (c1_atomicity env0 pr0
    (by intro n s ro h; cases h; rfl)
    (by intro u hu; injection hu with h; subst h; decide)).2 ("c:fix")
    (by decide)
  exact ⟨h.1, h.2.1⟩

end Bulldozer
